import Mathlib

/-
  Verification development for the gRPC server dispatch layer
  (NestServerGrpc): a shallow embedding of its stream writer,
  call adapters, service binder, pattern registry and service
  discovery, with theorems checking the specified properties.
-/

set_option maxRecDepth 4000

namespace NestGrpc

/-! ### Stream writer (`writeObservableToGrpc`)

The function `writeObservableToGrpc(source, call)` is an event-driven
state machine.  Its mutable state consists of the FIFO `buffer`, the
flags `isComplete` and `clearToWrite`, the attachment state of the
`drain` and cancel listeners (they are detached by `cleanup`), and the
closed-state of the RxJS subscription (a subscriber is closed after
`complete`/`error`/`unsubscribe` and delivers no further events).
We additionally record the observable outputs: the sequence of values
passed to `call.write`, the number of `call.end()` invocations, the
errors emitted on the call's error channel, the settlement of the
returned promise, and whether any `call.write` returned `false`. -/

structure WState (T : Type) where
  buffer : List T
  isComplete : Bool
  clearToWrite : Bool
  drainAttached : Bool
  cancelAttached : Bool
  subClosed : Bool
  written : List T
  endCount : Nat
  emittedErrors : List Nat
  settled : Option (Option Nat)
  sawBackpressure : Bool
  deriving Repr, DecidableEq

/-- Events that drive `writeObservableToGrpc`: producer notifications
(`next`/`error`/`complete`) and transport call events (`drain`, cancel).
The boolean carried by `next` and `drain` is the value `call.write`
returns in case the event leads to a `write` invocation (the transport
decides backpressure). -/
inductive WEvent (T : Type) where
  | next (v : T) (ok : Bool)
  | complete
  | error (e : Nat)
  | drain (ok : Bool)
  | cancel
  deriving Repr, DecidableEq

variable {T : Type}

/-- Initial state of one `writeObservableToGrpc` invocation. -/
def initState : WState T :=
  { buffer := [], isComplete := false, clearToWrite := true,
    drainAttached := true, cancelAttached := true, subClosed := false,
    written := [], endCount := 0, emittedErrors := [], settled := none,
    sawBackpressure := false }

/-- The `cleanup` closure: runs the registered cleanups, which detach
the `drain` and cancel listeners from the call. -/
def doCleanup (s : WState T) : WState T :=
  { s with drainAttached := false, cancelAttached := false }

/-- The `write` closure: `clearToWrite = call.write(value)`.  `ok` is
the value returned by `call.write`. -/
def doWrite (s : WState T) (v : T) (ok : Bool) : WState T :=
  { s with written := s.written ++ [v], clearToWrite := ok,
           sawBackpressure := s.sawBackpressure || !ok }

/-- Settling the promise with `resolve()` (first settlement wins). -/
def doResolve (s : WState T) : WState T :=
  match s.settled with
  | none => { s with settled := some none }
  | some _ => s

/-- Settling the promise with `reject(err)` (first settlement wins). -/
def doReject (s : WState T) (e : Nat) : WState T :=
  match s.settled with
  | none => { s with settled := some (some e) }
  | some _ => s

/-- The `done` closure: `call.end(); resolve(); cleanup();`. -/
def doDone (s : WState T) : WState T :=
  doCleanup (doResolve { s with endCount := s.endCount + 1 })

/-- One step of the `writeObservableToGrpc` state machine, mirroring the
subscriber's `next`/`error`/`complete` handlers and the registered
`drainHandler` and `cancelHandler`.  Producer events are delivered only
while the subscription is open; call events only while the respective
listener is attached. -/
def writeStep (s : WState T) (e : WEvent T) : WState T :=
  match e with
  | WEvent.next v ok =>
      if s.subClosed then s
      else if s.clearToWrite then doWrite s v ok
      else { s with buffer := s.buffer ++ [v] }
  | WEvent.complete =>
      if s.subClosed then s
      else
        let s1 := { s with subClosed := true, isComplete := true }
        if s1.buffer.isEmpty then doDone s1 else s1
  | WEvent.error e =>
      if s.subClosed then s
      else
        doCleanup (doReject
          { s with subClosed := true, emittedErrors := s.emittedErrors ++ [e] } e)
  | WEvent.drain ok =>
      if s.drainAttached then
        if s.clearToWrite then s
        else
          let s1 := { s with clearToWrite := true }
          match s1.buffer with
          | v :: rest => doWrite { s1 with buffer := rest } v ok
          | [] => if s1.isComplete then doDone s1 else s1
      else s
  | WEvent.cancel =>
      if s.cancelAttached then doDone { s with subClosed := true }
      else s

/-- Run the state machine from a given state over a trace of events. -/
def runFrom (s : WState T) (t : List (WEvent T)) : WState T :=
  t.foldl writeStep s

/-- Run one `writeObservableToGrpc` invocation over a trace of events. -/
def runWriter (t : List (WEvent T)) : WState T :=
  runFrom initState t

/-- The errors emitted on the call's error channel by the composed
server-streaming adapter `createStreamServiceMethod`: the emissions made
inside `writeObservableToGrpc` itself, followed by the adapter's own
`call.emit('error', err)` from its `catch` in case the returned promise
rejected. -/
def streamMethodErrorEmits (t : List (WEvent T)) : List Nat :=
  (runWriter t).emittedErrors ++
    (match (runWriter t).settled with
     | some (some e) => [e]
     | _ => [])

/-- The full sequence of values carried by `next` events of a trace:
the producer's emission sequence. -/
def allValues (t : List (WEvent T)) : List T :=
  t.filterMap (fun e =>
    match e with
    | WEvent.next v _ => some v
    | _ => none)

/-- A trace contains no cancellation and no producer error. -/
def noCancelError (t : List (WEvent T)) : Bool :=
  t.all (fun e =>
    match e with
    | WEvent.cancel => false
    | WEvent.error _ => false
    | _ => true)

/-- Recognizer for `drain` events. -/
def isDrainEv (e : WEvent T) : Bool :=
  match e with
  | WEvent.drain _ => true
  | _ => false

example : (runWriter [WEvent.next (1 : Nat) false, WEvent.next 2 true,
    WEvent.drain true, WEvent.complete]).written = [1, 2] := by decide

example : (runWriter [WEvent.next (1 : Nat) false, WEvent.next 2 true,
    WEvent.complete, WEvent.drain false, WEvent.drain true]).endCount = 1 := by
  decide

/-! ### Invariants of the stream writer -/

theorem runFrom_cons (s : WState T) (e : WEvent T) (t : List (WEvent T)) :
    runFrom s (e :: t) = runFrom (writeStep s e) t := rfl

theorem runFrom_append (s : WState T) (t u : List (WEvent T)) :
    runFrom s (t ++ u) = runFrom (runFrom s t) u := by
  simp [runFrom, List.foldl_append]

theorem runWriter_append (t u : List (WEvent T)) :
    runWriter (t ++ u) = runFrom (runWriter t) u := by
  simp [runWriter, runFrom_append]

/-- A state in which the subscription is closed and both listeners are
detached: no event has any further effect. -/
def absorbedState (s : WState T) : Prop :=
  s.subClosed = true ∧ s.drainAttached = false ∧ s.cancelAttached = false

theorem writeStep_absorbed {s : WState T} (h : absorbedState s) (e : WEvent T) :
    writeStep s e = s := by
  obtain ⟨h1, h2, h3⟩ := h
  cases e <;> simp [writeStep, h1, h2, h3]

theorem runFrom_absorbed {s : WState T} (h : absorbedState s)
    (t : List (WEvent T)) : runFrom s t = s := by
  induction t with
  | nil => rfl
  | cons e t ih => rw [runFrom_cons, writeStep_absorbed h e]; exact ih

/-- The reachable-state invariant of `writeObservableToGrpc`, keyed on
the settlement of the returned promise: while the promise is pending
both listeners are attached, the call has not been ended and no error
has been emitted; once resolved (via `done`) the call was ended exactly
once; once rejected (producer error) the call was never ended and
exactly that error was emitted; on every settlement the listeners have
been cleaned up and the subscription is closed. -/
def StateInv (s : WState T) : Prop :=
  (s.isComplete = true → s.subClosed = true) ∧
  (s.settled = none →
    s.cancelAttached = true ∧ s.drainAttached = true ∧
    s.endCount = 0 ∧ s.emittedErrors = []) ∧
  (s.settled = some none →
    absorbedState s ∧ s.endCount = 1 ∧ s.emittedErrors = []) ∧
  (∀ e, s.settled = some (some e) →
    absorbedState s ∧ s.endCount = 0 ∧ s.emittedErrors = [e])

theorem stateInv_init : StateInv (initState : WState T) := by
  refine ⟨?_, ?_, ?_, ?_⟩ <;> simp [initState]

theorem stateInv_step {s : WState T} (hs : StateInv s) (e : WEvent T) :
    StateInv (writeStep s e) := by
  obtain ⟨hic, hpend, hres, hrej⟩ := hs
  match hset : s.settled with
  | some o =>
    have habs : absorbedState s := by
      match o with
      | none => exact (hres hset).1
      | some err => exact (hrej err hset).1
    rw [writeStep_absorbed habs]
    exact ⟨hic, hpend, hres, hrej⟩
  | none =>
    obtain ⟨hca, hda, hec, hee⟩ := hpend hset
    cases e with
    | next v ok =>
      by_cases hsc : s.subClosed
      · simpa [writeStep, hsc] using ⟨hic, fun _ => ⟨hca, hda, hec, hee⟩, hres, hrej⟩
      · have hicf : s.isComplete = false := by
          cases h : s.isComplete
          · rfl
          · exact absurd (hic h) hsc
        by_cases hcw : s.clearToWrite
        · refine ⟨?_, ?_, ?_, ?_⟩ <;>
            simp [writeStep, hsc, hcw, doWrite, hset, hicf, hca, hda, hec, hee]
        · refine ⟨?_, ?_, ?_, ?_⟩ <;>
            simp [writeStep, hsc, hcw, hset, hicf, hca, hda, hec, hee]
    | complete =>
      by_cases hsc : s.subClosed
      · simpa [writeStep, hsc] using ⟨hic, fun _ => ⟨hca, hda, hec, hee⟩, hres, hrej⟩
      · by_cases hbe : s.buffer.isEmpty
        · refine ⟨?_, ?_, ?_, ?_⟩ <;>
            simp [writeStep, hsc, hbe, doDone, doResolve, doCleanup, hset,
              absorbedState, hec, hee]
        · refine ⟨?_, ?_, ?_, ?_⟩ <;>
            simp [writeStep, hsc, hbe, hset, hca, hda, hec, hee]
    | error err =>
      by_cases hsc : s.subClosed
      · simpa [writeStep, hsc] using ⟨hic, fun _ => ⟨hca, hda, hec, hee⟩, hres, hrej⟩
      · have hicf : s.isComplete = false := by
          cases h : s.isComplete
          · rfl
          · exact absurd (hic h) hsc
        refine ⟨?_, ?_, ?_, ?_⟩ <;>
          simp [writeStep, hsc, doCleanup, doReject, hset, absorbedState,
            hicf, hec, hee]
    | drain ok =>
      by_cases hcw : s.clearToWrite
      · simpa [writeStep, hda, hcw] using ⟨hic, fun _ => ⟨hca, hda, hec, hee⟩, hres, hrej⟩
      · match hbuf : s.buffer with
        | v :: rest =>
          refine ⟨?_, ?_, ?_, ?_⟩
          · simpa [writeStep, hda, hcw, hbuf, doWrite] using hic
          all_goals
            simp [writeStep, hda, hcw, hbuf, doWrite, hset, hca, hec, hee]
        | [] =>
          by_cases hcm : s.isComplete
          · have hsc : s.subClosed = true := hic hcm
            refine ⟨?_, ?_, ?_, ?_⟩ <;>
              simp [writeStep, hda, hcw, hbuf, hcm, doDone, doResolve,
                doCleanup, hset, absorbedState, hsc, hec, hee]
          · refine ⟨?_, ?_, ?_, ?_⟩ <;>
              simp [writeStep, hda, hcw, hbuf, hcm, hset, hca, hec, hee]
    | cancel =>
      refine ⟨?_, ?_, ?_, ?_⟩ <;>
        simp [writeStep, hca, doDone, doResolve, doCleanup, hset,
          absorbedState, hec, hee]

theorem stateInv_runFrom {s : WState T} (hs : StateInv s)
    (t : List (WEvent T)) : StateInv (runFrom s t) := by
  induction t generalizing s with
  | nil => exact hs
  | cons e t ih => exact ih (stateInv_step hs e)

theorem stateInv_runWriter (t : List (WEvent T)) : StateInv (runWriter t) :=
  stateInv_runFrom stateInv_init t

/-- While the sink is clear to write, a `drain` event has no effect
(the handler's guard rejects it). -/
theorem writeStep_drain_clear {s : WState T} (h : s.clearToWrite = true)
    (ok : Bool) : writeStep s (WEvent.drain ok) = s := by
  by_cases hd : s.drainAttached <;> simp [writeStep, hd, h]

theorem runFrom_drains_fix {s : WState T} (h : s.clearToWrite = true)
    {u : List (WEvent T)} (hu : u.all isDrainEv = true) : runFrom s u = s := by
  induction u with
  | nil => rfl
  | cons e u ih =>
    rw [List.all_cons, Bool.and_eq_true] at hu
    match e with
    | WEvent.drain ok =>
      rw [runFrom_cons, writeStep_drain_clear h ok]
      exact ih hu.2
    | WEvent.next _ _ => simp [isDrainEv] at hu
    | WEvent.complete => simp [isDrainEv] at hu
    | WEvent.error _ => simp [isDrainEv] at hu
    | WEvent.cancel => simp [isDrainEv] at hu

/-! ### Stream writer claims -/

/-- A trace exhibiting claim C1's scenario: producer emits 1, 2, 3, 4;
the write of 1 reports backpressure; 2 and 3 are buffered; a drain
writes 2 (write returns true, so the sink is clear again while 3 is
still buffered); 4 then arrives and is written immediately, jumping
ahead of 3; a final drain flushes 3. -/
def c1trace : List (WEvent Nat) :=
  [WEvent.next 1 false, WEvent.next 2 true, WEvent.next 3 true,
   WEvent.drain true, WEvent.next 4 false, WEvent.drain true]

/-- C1: the claim states that whenever a write reports backpressure at
least once and no cancellation or producer error occurs, the sequence
passed to `call.write` equals the producer's emission sequence exactly.
This run violates it: with emissions `[1, 2, 3, 4]`, no cancellation or
error, backpressure reported, and the buffer fully flushed, the values
are written in the order `[1, 2, 4, 3]` — a value arriving while the
sink is clear but the buffer still non-empty overtakes the buffered
values (no drop and no duplicate, but the order is not preserved). -/
theorem streamWriter_reorders_under_drain :
    noCancelError c1trace = true ∧
    (runWriter c1trace).sawBackpressure = true ∧
    allValues c1trace = [1, 2, 3, 4] ∧
    (runWriter c1trace).buffer = [] ∧
    (runWriter c1trace).written = [1, 2, 4, 3] ∧
    (runWriter c1trace).written ≠ allValues c1trace ∧
    List.Perm (runWriter c1trace).written (allValues c1trace) := by
  refine ⟨by decide, by decide, by decide, by decide, by decide, by decide,
    by decide⟩

/-- A trace exhibiting claim C2's scenario: the write of 1 reports
backpressure, 2 is buffered, the producer completes with the buffer
non-empty, and the drain flushes 2 with `call.write` returning true. -/
def c2trace : List (WEvent Nat) :=
  [WEvent.next 1 false, WEvent.next 2 true, WEvent.complete,
   WEvent.drain true]

/-- C2: the claim states that when the producer completes normally with
N values buffered and no cancellation or error occurs, `call.end()` is
invoked exactly once (after the buffer is flushed).  This run violates
it: after the producer completed with one value buffered and the drain
flushed that value with `call.write` returning true, the drain handler's
`clearToWrite` guard rejects every further drain event, so the call is
never ended and the promise never settles, no matter how many more
drain events arrive. -/
theorem streamWriter_stalls_after_flush (u : List (WEvent Nat))
    (hu : u.all isDrainEv = true) :
    (runWriter (c2trace ++ u)).endCount = 0 ∧
    (runWriter (c2trace ++ u)).written = [1, 2] ∧
    (runWriter (c2trace ++ u)).buffer = [] ∧
    (runWriter (c2trace ++ u)).settled = none := by
  have h2 : (runWriter c2trace).clearToWrite = true := by decide
  rw [runWriter_append, runFrom_drains_fix h2 hu]
  exact ⟨by decide, by decide, by decide, by decide⟩

theorem streamWriter_stalls_after_flush_witness :
    (([WEvent.drain true, WEvent.drain false] :
        List (WEvent Nat)).all isDrainEv = true) ∧
    (runWriter (c2trace ++ [WEvent.drain true, WEvent.drain false])).endCount
      = 0 :=
  ⟨by decide,
    (streamWriter_stalls_after_flush [WEvent.drain true, WEvent.drain false]
      (by decide)).1⟩

/-- A trace in which the producer emits one value and then errors. -/
def c3trace : List (WEvent Nat) := [WEvent.next 1 true, WEvent.error 5]

/-- C3 counterexample: the claim states that a producer error leads to
exactly one error notification on the call's error channel, but the
composed server-streaming adapter emits the error twice — once in the
subscriber's error handler inside `writeObservableToGrpc` and once more
in `createStreamServiceMethod`'s catch of the rejected promise. -/
theorem streamMethod_double_error_emit :
    streamMethodErrorEmits c3trace = [5, 5] ∧
    (streamMethodErrorEmits c3trace).length ≠ 1 :=
  ⟨by decide, by decide⟩

/-- C3 (amended): when the producer errors while the invocation is live,
the composed server-streaming adapter emits the error exactly twice on
the call's error channel (writer handler plus adapter catch), and no
value — including any buffered value — is written to the call after the
error, whatever call events follow. -/
theorem streamMethod_error_emits_twice_no_writes
    (t1 t2 : List (WEvent Nat)) (e : Nat)
    (hpending : (runWriter t1).settled = none)
    (hopen : (runWriter t1).subClosed = false) :
    streamMethodErrorEmits (t1 ++ WEvent.error e :: t2) = [e, e] ∧
    (runWriter (t1 ++ WEvent.error e :: t2)).written
      = (runWriter t1).written := by
  obtain ⟨hic, hpend, hres, hrej⟩ := stateInv_runWriter (T := Nat) t1
  obtain ⟨hca, hda, hec, hee⟩ := hpend hpending
  have hstep : writeStep (runWriter t1) (WEvent.error e) =
      doCleanup (doReject { runWriter t1 with
        subClosed := true,
        emittedErrors := (runWriter t1).emittedErrors ++ [e] } e) := by
    simp [writeStep, hopen]
  have habs : absorbedState (writeStep (runWriter t1) (WEvent.error e)) := by
    simp [absorbedState, hstep, doCleanup, doReject, hpending]
  have hrun : runWriter (t1 ++ WEvent.error e :: t2)
      = writeStep (runWriter t1) (WEvent.error e) := by
    rw [runWriter_append, runFrom_cons, runFrom_absorbed habs]
  constructor
  · simp [streamMethodErrorEmits, hrun, hstep, doCleanup, doReject,
      hpending, hee]
  · simp [hrun, hstep, doCleanup, doReject, hpending]

theorem streamMethod_error_emits_twice_no_writes_witness :
    (runWriter [WEvent.next (1 : Nat) true]).settled = none ∧
    (runWriter [WEvent.next (1 : Nat) true]).subClosed = false ∧
    streamMethodErrorEmits
      ([WEvent.next (1 : Nat) true] ++ WEvent.error 5 :: [WEvent.drain false])
      = [5, 5] :=
  ⟨by decide, by decide,
    (streamMethod_error_emits_twice_no_writes [WEvent.next 1 true]
      [WEvent.drain false] 5 (by decide) (by decide)).1⟩

/-- C8: if a cancellation signal arrives while the invocation is live
(the promise is still pending — values may remain buffered), the call
is ended immediately and exactly once, nothing further is ever written
(buffered values are discarded), the producer subscription is closed,
and the machine is absorbed: any further events — including a second
cancellation signal — leave the state exactly as it was right after the
first cancellation. -/
theorem cancel_teardown_idempotent (t u : List (WEvent Nat))
    (hpending : (runWriter t).settled = none) :
    (runWriter (t ++ WEvent.cancel :: u)).endCount = 1 ∧
    (runWriter (t ++ WEvent.cancel :: u)).written = (runWriter t).written ∧
    (runWriter (t ++ WEvent.cancel :: u)).subClosed = true ∧
    runWriter (t ++ WEvent.cancel :: u) = runWriter (t ++ [WEvent.cancel]) := by
  obtain ⟨hic, hpend, hres, hrej⟩ := stateInv_runWriter (T := Nat) t
  obtain ⟨hca, hda, hec, hee⟩ := hpend hpending
  have hstep : writeStep (runWriter t) WEvent.cancel
      = doDone { runWriter t with subClosed := true } := by
    simp [writeStep, hca]
  have habs : absorbedState (writeStep (runWriter t) WEvent.cancel) := by
    simp [absorbedState, hstep, doDone, doCleanup, doResolve, hpending]
  have hrun : runWriter (t ++ WEvent.cancel :: u)
      = writeStep (runWriter t) WEvent.cancel := by
    rw [runWriter_append, runFrom_cons, runFrom_absorbed habs]
  have hone : runWriter (t ++ [WEvent.cancel])
      = writeStep (runWriter t) WEvent.cancel := by
    rw [runWriter_append]; rfl
  refine ⟨?_, ?_, ?_, ?_⟩
  · simp [hrun, hstep, doDone, doCleanup, doResolve, hpending, hec]
  · simp [hrun, hstep, doDone, doCleanup, doResolve, hpending]
  · simp [hrun, hstep, doDone, doCleanup, doResolve, hpending]
  · rw [hrun, hone]

theorem cancel_teardown_idempotent_witness :
    (runWriter [WEvent.next (1 : Nat) false, WEvent.next 2 true]).settled
      = none ∧
    (runWriter ([WEvent.next (1 : Nat) false, WEvent.next 2 true]
      ++ WEvent.cancel :: [WEvent.cancel, WEvent.drain true])).endCount = 1 :=
  ⟨by decide,
    (cancel_teardown_idempotent [WEvent.next 1 false, WEvent.next 2 true]
      [WEvent.cancel, WEvent.drain true] (by decide)).1⟩

/-! ### Unary call adapter (`createUnaryServiceMethod`) -/

/-- One invocation of the unary response callback: `callback(null, v)`
on a value, `callback(e)` on an error. -/
inductive CallbackCall where
  | ok (v : Nat)
  | fail (e : Nat)
  deriving Repr, DecidableEq

/-- The callback invocations made by `createUnaryServiceMethod` when the
handler's normalized result is an asynchronous sequence that emits
`values` and then either completes (`err = none`) or errors
(`err = some e`): the subscriber invokes `callback(null, data)` on
every `next` notification and `callback(err)` on `error`; completion
invokes nothing. -/
def unaryCallbacks (values : List Nat) (err : Option Nat) :
    List CallbackCall :=
  values.map CallbackCall.ok ++
    (match err with
     | some e => [CallbackCall.fail e]
     | none => [])

/-- C6 counterexample: the claim states that whatever the normalized
result sequence turns out to be (one value, many values, zero values,
or an error) the single-response callback is invoked exactly once; but
a two-value sequence invokes it twice and an empty sequence never
invokes it. -/
theorem unary_multiple_callbacks :
    (unaryCallbacks [1, 2] none).length = 2 ∧
    ¬(unaryCallbacks [1, 2] none).length = 1 ∧
    (unaryCallbacks [] none).length = 0 :=
  ⟨by decide, by decide, by decide⟩

/-- C6 (amended): the unary adapter invokes the callback once per value
emitted by the normalized result sequence, plus once more if the
sequence errors — in particular exactly once for a single-value
sequence or for a sequence that errors before emitting, but zero times
for an empty sequence and k times for a k-value sequence. -/
theorem unary_callback_count (values : List Nat) (err : Option Nat) :
    (unaryCallbacks values err).length
      = values.length + (match err with | some _ => 1 | none => 0) := by
  cases err <;> simp [unaryCallbacks]

/-! ### Request-stream conversion (`createRequestStreamMethod`) -/

/-- ASCII lower-casing of one character, as
`String.prototype.toLowerCase` acts on the characters occurring here. -/
def jsLowerChar (c : Char) : Char :=
  if 65 ≤ c.toNat ∧ c.toNat ≤ 90 then Char.ofNat (c.toNat + 32) else c

/-- JavaScript `s.toLowerCase()` (over ASCII). -/
def jsToLower (s : String) : String := String.mk (s.data.map jsLowerChar)

/-- JavaScript `hay.indexOf(pat)`: the first index at which `pat`
occurs as a substring of `hay`, or `-1` if it does not occur. -/
def jsIndexOf (hay pat : String) : Int :=
  match (List.range (hay.data.length + 1)).find?
      (fun i => pat.data.isPrefixOf (hay.data.drop i)) with
  | some i => (i : Int)
  | none => -1

/-- Whether the lower-cased string representation of an error contains
the substring "cancelled" — the condition the spec describes for a
transport-level cancellation. -/
def containsCancelled (s : String) : Bool :=
  jsIndexOf (jsToLower s) "cancelled" != -1

/-- The action taken on the inbound request stream by the call's error
handler. -/
inductive ReqErrorAction where
  | endCall
  | failSeq (e : String)
  deriving Repr, DecidableEq

/-- The 'error' handler installed by `createRequestStreamMethod` on the
call: `isCancelledError = String(e).toLowerCase().indexOf('cancelled')`
is used directly as the branch condition, so the "cancelled" branch
(`call.end()` and return) is taken whenever the index is a truthy
number, i.e. any value other than `0`; only an index of exactly `0`
falls through to `req.error(e)`. -/
def onCallError (e : String) : ReqErrorAction :=
  let isCancelledError : Int := jsIndexOf (jsToLower e) "cancelled"
  if isCancelledError ≠ 0 then ReqErrorAction.endCall
  else ReqErrorAction.failSeq e

/-- C4: the claim says an error whose string representation indicates a
transport "cancelled" condition ends the call while every other error
is forwarded to the request sequence.  The code tests the result of
`indexOf` for truthiness instead of comparing it with `-1`, which
inverts the logic: an error not containing "cancelled" at all (index
`-1`, truthy) ends the call and is swallowed, while an error whose
lower-cased representation starts with "cancelled" (index `0`, falsy)
is forwarded as a failure. -/
theorem cancelledError_check_inverted :
    containsCancelled "connection reset" = false ∧
    onCallError "connection reset" = ReqErrorAction.endCall ∧
    containsCancelled "Cancelled" = true ∧
    onCallError "Cancelled" = ReqErrorAction.failSeq "Cancelled" :=
  ⟨by decide, by decide, by decide, by decide⟩

/-! ### Client-stream adapter with response streaming disabled -/

/-- A value delivered by the handler's result sequence: the JavaScript
undefined value or a defined value. -/
inductive UVal where
  | undef
  | val (n : Nat)
  deriving Repr, DecidableEq

/-- One invocation of the client-stream completion callback. -/
inductive ClientCallback where
  | ok (v : UVal)
  | fail (e : Nat)
  deriving Repr, DecidableEq

/-- The callback invocations of the non-response-streaming branch of
`createRequestStreamMethod`: the result sequence emits `values` and
then completes (`err = none`) or errors (`err = some e`); `catchError`
invokes `callback(err, null)` and substitutes the empty sequence;
`defaultIfEmpty(undefined)` makes the undefined value the marker for an
empty sequence; `lastValueFrom` yields the last value; and the final
`callback(null, response)` runs only if the response is not undefined. -/
def clientStreamCallbacks (values : List UVal) (err : Option Nat) :
    List ClientCallback :=
  let response := values.getLastD UVal.undef
  (match err with
   | some e => [ClientCallback.fail e]
   | none => []) ++
    (if response = UVal.undef then [] else [ClientCallback.ok response])

/-- C10: in the client-stream adapter with response streaming disabled,
a handler result sequence that completes without error with the
undefined value as its last emission never invokes the completion
callback — exactly the behaviour of a sequence that emitted nothing,
because the empty-default marker is the undefined value itself. -/
theorem undefined_last_value_conflated_with_empty
    (values : List UVal) (h : values.getLast? = some UVal.undef) :
    clientStreamCallbacks values none = [] ∧
    clientStreamCallbacks values none = clientStreamCallbacks [] none := by
  constructor <;> simp [clientStreamCallbacks, List.getLastD_eq_getLast?, h]

theorem undefined_last_value_conflated_with_empty_witness :
    ([UVal.val 3, UVal.undef].getLast? = some UVal.undef) ∧
    clientStreamCallbacks [UVal.val 3, UVal.undef] none = [] :=
  ⟨by decide,
    (undefined_last_value_conflated_with_empty [UVal.val 3, UVal.undef]
      (by decide)).1⟩

/-! ### Pattern registry (`addHandler`, `createPattern`) -/

/-- The streaming kinds of `GrpcMethodStreamingType`.  The spec names
them NONE / REQUEST_ONLY / REQUEST_RESPONSE_PUSH; the code's enum
members are NO_STREAMING / PT_STREAMING / RX_STREAMING. -/
inductive GrpcMethodStreamingType where
  | noStreaming
  | rxStreaming
  | ptStreaming
  deriving Repr, DecidableEq

/-- The string values of the `GrpcMethodStreamingType` enum members. -/
def streamingTypeValue : GrpcMethodStreamingType → String
  | GrpcMethodStreamingType.noStreaming => "no_stream"
  | GrpcMethodStreamingType.rxStreaming => "rx_stream"
  | GrpcMethodStreamingType.ptStreaming => "pt_stream"

/-- One serialized JSON field with a string value (pattern components
contain no characters requiring escaping). -/
def stringifyField (k v : String) : String :=
  "\"" ++ k ++ "\":\"" ++ v ++ "\""

/-- JSON.stringify of an object literal with string-valued fields,
serialized in property insertion order. -/
def stringifyObj (fields : List (String × String)) : String :=
  "\x7b" ++ String.intercalate ","
    (fields.map (fun p => stringifyField p.1 p.2)) ++ "\x7d"

/-- `createPattern(service, methodName, streaming)`: JSON.stringify of
an object whose properties are inserted in the order service, rpc,
streaming. -/
def createPattern (service methodName : String)
    (streaming : GrpcMethodStreamingType) : String :=
  stringifyObj [("service", service), ("rpc", methodName),
    ("streaming", streamingTypeValue streaming)]

/-- Lookup in the `messageHandlers` map (`Map.get`): the value most
recently set for the key. -/
def mapGet {α : Type} (m : List (String × α)) (k : String) : Option α :=
  match m with
  | [] => none
  | (k2, v) :: rest => if k2 = k then some v else mapGet rest k

/-- A pattern as supplied to `addHandler`: either already a string, or
an object whose JSON serialization depends on its property insertion
order. -/
inductive JsPattern where
  | strP (s : String)
  | objP (fields : List (String × String))
  deriving Repr, DecidableEq

/-- The route under which `addHandler` stores a pattern:
`isString(pattern) ? pattern : JSON.stringify(pattern)`. -/
def routeOf : JsPattern → String
  | JsPattern.strP s => s
  | JsPattern.objP fields => stringifyObj fields

/-- `addHandler(pattern, callback)`: `messageHandlers.set(route,
callback)`; a later registration for the same route shadows an earlier
one. -/
def addHandler (handlers : List (String × Nat)) (pattern : JsPattern)
    (h : Nat) : List (String × Nat) :=
  (routeOf pattern, h) :: handlers

/-- C7 counterexample: the claim states that two pattern keys with
identical (service, method, streamingKind) component values collide
order-independently.  But the registry keys are JSON.stringify strings,
so a key object registered with its properties in the order rpc,
service, streaming is not found by a lookup with the canonical
service, rpc, streaming order, although every component value is
identical. -/
theorem pattern_key_order_sensitive :
    mapGet (addHandler []
        (JsPattern.objP [("rpc", "Hello"), ("service", "Svc"),
          ("streaming", "no_stream")]) 7)
      (routeOf (JsPattern.objP [("service", "Svc"), ("rpc", "Hello"),
          ("streaming", "no_stream")])) = none ∧
    ¬ mapGet (addHandler []
        (JsPattern.objP [("rpc", "Hello"), ("service", "Svc"),
          ("streaming", "no_stream")]) 7)
      (routeOf (JsPattern.objP [("service", "Svc"), ("rpc", "Hello"),
          ("streaming", "no_stream")])) = some 7 ∧
    mapGet [("rpc", "Hello"), ("service", "Svc"), ("streaming", "no_stream")]
        "service"
      = mapGet [("service", "Svc"), ("rpc", "Hello"),
          ("streaming", "no_stream")] "service" ∧
    mapGet [("rpc", "Hello"), ("service", "Svc"), ("streaming", "no_stream")]
        "rpc"
      = mapGet [("service", "Svc"), ("rpc", "Hello"),
          ("streaming", "no_stream")] "rpc" ∧
    mapGet [("rpc", "Hello"), ("service", "Svc"), ("streaming", "no_stream")]
        "streaming"
      = mapGet [("service", "Svc"), ("rpc", "Hello"),
          ("streaming", "no_stream")] "streaming" :=
  ⟨by decide, by decide, by decide, by decide, by decide⟩

/-- C7 (amended): registry keys compare by their serialized textual
form, not structurally and order-independently: lookup after
registration returns exactly the registered handler whenever the two
keys serialize to the same route string — in particular whenever the
key objects list identical component values in the same property
order, and in particular for the canonical order produced by
`createPattern`. -/
theorem pattern_route_roundtrip (handlers : List (String × Nat))
    (p q : JsPattern) (h : Nat) (hroute : routeOf p = routeOf q) :
    mapGet (addHandler handlers p h) (routeOf q) = some h := by
  simp [addHandler, mapGet, hroute]

theorem pattern_route_roundtrip_witness :
    routeOf (JsPattern.objP [("service", "Svc"), ("rpc", "Hello"),
        ("streaming", "no_stream")])
      = createPattern "Svc" "Hello" GrpcMethodStreamingType.noStreaming ∧
    mapGet (addHandler []
        (JsPattern.objP [("service", "Svc"), ("rpc", "Hello"),
          ("streaming", "no_stream")]) 7)
      (createPattern "Svc" "Hello" GrpcMethodStreamingType.noStreaming)
      = some 7 := by
  refine ⟨by decide, ?_⟩
  have hr : createPattern "Svc" "Hello" GrpcMethodStreamingType.noStreaming
      = routeOf (JsPattern.objP [("service", "Svc"), ("rpc", "Hello"),
          ("streaming", "no_stream")]) := by decide
  rw [hr]
  exact pattern_route_roundtrip []
    (JsPattern.objP [("service", "Svc"), ("rpc", "Hello"),
      ("streaming", "no_stream")])
    (JsPattern.objP [("service", "Svc"), ("rpc", "Hello"),
      ("streaming", "no_stream")]) 7 rfl

/-! ### Service binder (`createService`, `createServiceMethod`) -/

/-- A method descriptor from the loaded service definition.
`requestStream` is `none` when the property is undefined. -/
structure MethodDef where
  requestStream : Option Bool
  responseStream : Bool
  originalName : String
  deriving Repr, DecidableEq

/-- The four call adapters. -/
inductive AdapterKind where
  | requestStreamRx
  | streamCallPt
  | serverStream
  | unary
  deriving Repr, DecidableEq

/-- `createServiceMethod(methodHandler, protoNativeHandler, streamType)`
adapter selection: if the descriptor's `requestStream` is truthy, RX
streaming selects `createRequestStreamMethod` and PT streaming selects
`createStreamCallMethod`; otherwise (and for a non-streaming matched
kind) `responseStream` decides between `createStreamServiceMethod` and
`createUnaryServiceMethod`. -/
def createServiceMethod (streamType : GrpcMethodStreamingType)
    (d : MethodDef) : AdapterKind :=
  if d.requestStream = some true then
    match streamType with
    | GrpcMethodStreamingType.rxStreaming => AdapterKind.requestStreamRx
    | GrpcMethodStreamingType.ptStreaming => AdapterKind.streamCallPt
    | GrpcMethodStreamingType.noStreaming =>
        if d.responseStream then AdapterKind.serverStream
        else AdapterKind.unary
  else
    if d.responseStream then AdapterKind.serverStream
    else AdapterKind.unary

/-- One iteration of the `createService` loop for method `methodName`
with descriptor `d`: for a request-streaming method try the RX pattern,
then the PT pattern (the selected `streamingType` ends up PT whenever
RX did not match); for a non-streaming method try the no-streaming
pattern; if still unmatched and `methodName !== originalName`, retry a
single lookup with `originalName` and the streaming type selected
last.  Returns the selected streaming type and handler, if any. -/
def bindMethod (handlers : List (String × Nat)) (name methodName : String)
    (d : MethodDef) : Option (GrpcMethodStreamingType × Nat) :=
  let first :=
    if d.requestStream = some true then
      match mapGet handlers
          (createPattern name methodName
            GrpcMethodStreamingType.rxStreaming) with
      | some h => (GrpcMethodStreamingType.rxStreaming, some h)
      | none =>
          (GrpcMethodStreamingType.ptStreaming,
           mapGet handlers
             (createPattern name methodName
               GrpcMethodStreamingType.ptStreaming))
    else
      (GrpcMethodStreamingType.noStreaming,
       mapGet handlers
         (createPattern name methodName
           GrpcMethodStreamingType.noStreaming))
  let retried :=
    match first.2 with
    | some h => some h
    | none =>
        if methodName = d.originalName then none
        else mapGet handlers (createPattern name d.originalName first.1)
  match retried with
  | some h => some (first.1, h)
  | none => none

/-- `createService(grpcService, name)`: bind every method for which a
handler was found to its adapter; methods with no matching handler are
skipped. -/
def createService (handlers : List (String × Nat))
    (grpcService : List (String × MethodDef)) (name : String) :
    List (String × AdapterKind × Nat) :=
  grpcService.filterMap (fun m =>
    match bindMethod handlers name m.1 m.2 with
    | some (st, h) => some (m.1, createServiceMethod st m.2, h)
    | none => none)

/-- C5 counterexample: the claim states that when no handler matched
under `methodName`, the binder retries the lookup procedure of steps
1/2 under `originalName`, so that a request-streaming handler
registered under (service, originalName, REQUEST_RESPONSE_PUSH = RX
streaming) is found and bound.  Here such a handler is registered
(under service "Svc", original name "orig", RX streaming), the wire
method "Method" has `originalName = "orig"` and `requestStream = true`,
yet `createService` binds nothing: the retry reuses only the streaming
type selected last — PT — and never retries the RX pattern under
`originalName`. -/
theorem originalName_rx_fallback_missed :
    mapGet [(createPattern "Svc" "orig" GrpcMethodStreamingType.rxStreaming,
        7)]
      (createPattern "Svc" "orig" GrpcMethodStreamingType.rxStreaming)
      = some 7 ∧
    createService
      [(createPattern "Svc" "orig" GrpcMethodStreamingType.rxStreaming, 7)]
      [("Method", ⟨some true, false, "orig"⟩)] "Svc" = [] :=
  ⟨by decide, by decide⟩

/-- C5 (amended): when no handler matched under `methodName` and
`methodName` differs from `originalName`, the binder retries exactly
one lookup under `originalName` with the streaming kind selected last —
PT streaming for a request-streaming method (NO streaming otherwise) —
so a request-streaming method whose handler is registered under
(service, originalName, REQUEST_ONLY = PT streaming) is found and bound
to the pass-through adapter; a handler registered only under
REQUEST_RESPONSE_PUSH with `originalName` is not retried and stays
unbound. -/
theorem originalName_fallback_pt_only (handlers : List (String × Nat))
    (svc mn orig : String) (h : Nat) (resp : Bool)
    (hne : mn ≠ orig)
    (h1 : mapGet handlers
      (createPattern svc mn GrpcMethodStreamingType.rxStreaming) = none)
    (h2 : mapGet handlers
      (createPattern svc mn GrpcMethodStreamingType.ptStreaming) = none)
    (h3 : mapGet handlers
      (createPattern svc orig GrpcMethodStreamingType.ptStreaming)
      = some h) :
    bindMethod handlers svc mn
      ⟨some true, resp, orig⟩
      = some (GrpcMethodStreamingType.ptStreaming, h) ∧
    createService handlers
      [(mn, ⟨some true, resp, orig⟩)] svc
      = [(mn, AdapterKind.streamCallPt, h)] := by
  have hb : bindMethod handlers svc mn
      ⟨some true, resp, orig⟩
      = some (GrpcMethodStreamingType.ptStreaming, h) := by
    simp [bindMethod, h1, h2, h3, hne]
  refine ⟨hb, ?_⟩
  simp [createService, hb, createServiceMethod]

theorem originalName_fallback_pt_only_witness :
    ("Method" : String) ≠ "orig" ∧
    createService
      [(createPattern "Svc" "orig" GrpcMethodStreamingType.ptStreaming, 9)]
      [("Method", ⟨some true, true, "orig"⟩)] "Svc"
      = [("Method", AdapterKind.streamCallPt, 9)] :=
  ⟨by decide,
    (originalName_fallback_pt_only
      [(createPattern "Svc" "orig" GrpcMethodStreamingType.ptStreaming, 9)]
      "Svc" "Method" "orig" 9 true (by decide) (by decide) (by decide)
      (by decide)).2⟩

/-! ### Service discovery (`getServiceNames`, `collectDeepServices`) -/

/-- A JavaScript value in a loaded proto namespace tree: the undefined
value, the boolean `false`, some other non-object value (standing for
service definitions, client constructors and the like), or an object
with its properties in insertion order. -/
inductive JsVal where
  | undef : JsVal
  | fls : JsVal
  | prim : Nat → JsVal
  | obj : List (String × JsVal) → JsVal

/-- JavaScript truthiness of the values occurring in a namespace tree
(`undefined` and `false` are falsy). -/
def jsTruthy : JsVal → Bool
  | JsVal.undef => false
  | JsVal.fls => false
  | JsVal.prim _ => true
  | JsVal.obj _ => true

/-- Property access within an object's field list (`undefined` when the
key is absent). -/
def lookupField : List (String × JsVal) → String → JsVal
  | [], _ => JsVal.undef
  | (k, v) :: rest, key => if k = key then v else lookupField rest key

/-- JavaScript property access: `undefined` on non-objects and on
missing keys. -/
def getField : JsVal → String → JsVal
  | JsVal.obj fields, k => lookupField fields k
  | _, _ => JsVal.undef

/-- `isUndefined`. -/
def isUndefinedV : JsVal → Bool
  | JsVal.undef => true
  | _ => false

/-- Strict comparison with the literal `false`. -/
def isFalseV : JsVal → Bool
  | JsVal.fls => true
  | _ => false

/-- `isObject`. -/
def isObjectV : JsVal → Bool
  | JsVal.obj _ => true
  | _ => false

/-- The condition under which `collectDeepServices` treats a child node
as a service: `deepDefinition && !isUndefined(deepDefinition.service)`
(`isServiceDefined`) together with `deepDefinition.service !== false`
(`isServiceBoolean`). -/
def isServiceNode (v : JsVal) : Bool :=
  jsTruthy v && !isUndefinedV (getField v "service")
    && !isFalseV (getField v "service")

/-- `parseDeepServiceName(name, key)`: at depth zero the key itself,
otherwise dot-joined. -/
def parseDeepServiceName (name key : String) : String :=
  if name.length = 0 then key else name ++ "." ++ key

mutual
/-- `collectDeepServices(name, grpcDefinition, accumulator)`: nothing
on non-objects; otherwise traverse the keys in order, pushing service
nodes under their extended name and recursing into the rest.  The
accumulator is represented by returning the pushed list. -/
def collectDeepServices (name : String) (v : JsVal) :
    List (String × JsVal) :=
  match v with
  | JsVal.obj fields => collectFields name fields
  | _ => []

/-- The loop over `Object.keys(grpcDefinition)` inside
`collectDeepServices`. -/
def collectFields (name : String) (fields : List (String × JsVal)) :
    List (String × JsVal) :=
  match fields with
  | [] => []
  | (key, child) :: rest =>
      (if isServiceNode child then [(parseDeepServiceName name key, child)]
       else collectDeepServices (parseDeepServiceName name key) child)
      ++ collectFields name rest
end

/-- `getServiceNames(grpcPkg)`: the recursive scan started with the
empty name. -/
def getServiceNames (pkg : JsVal) : List (String × JsVal) :=
  collectDeepServices "" pkg

/-- Optional property lookup, used to follow a path of keys. -/
def lookupEntry : List (String × JsVal) → String → Option JsVal
  | [], _ => none
  | (k, v) :: rest, key => if k = key then some v else lookupEntry rest key

/-- The node of a tree at a path of keys from the root. -/
def nodeAt : JsVal → List String → Option JsVal
  | v, [] => some v
  | JsVal.obj fields, k :: p =>
      match lookupEntry fields k with
      | some w => nodeAt w p
      | none => none
  | _, _ :: _ => none

/-- The fully dotted name of a path: its keys joined with ".". -/
def dotted : List String → String
  | [] => ""
  | [k] => k
  | k :: p => k ++ "." ++ dotted p

/-- The name the collector assigns to a node at relative path `p` when
the accumulated name is `name`. -/
def extendName (name : String) (p : List String) : String :=
  if name.length = 0 then dotted p else name ++ "." ++ dotted p

mutual
/-- Well-formedness of a namespace tree: at every object node the
property keys are pairwise distinct and nonempty, as they are for any
JavaScript object produced by the proto loader. -/
def wfKeys : JsVal → Bool
  | JsVal.obj fields =>
      decide ((fields.map Prod.fst).Nodup) &&
      fields.all (fun kv => kv.1 != "") &&
      wfFields fields
  | _ => true

/-- Well-formedness of every value in a field list. -/
def wfFields : List (String × JsVal) → Bool
  | [] => true
  | (_, v) :: rest => wfKeys v && wfFields rest
end

/-- All proper nonempty ancestors of the path `p` below the root of `v`
are non-service nodes. -/
def ancestorsClear (v : JsVal) (p : List String) : Prop :=
  ∀ q r, q ≠ [] → r ≠ [] → q ++ r = p →
    ∃ w, nodeAt v q = some w ∧ isServiceNode w = false

example : (getServiceNames (JsVal.obj [("a", JsVal.obj [("S",
    JsVal.obj [("service", JsVal.prim 0)])])])).map Prod.fst
    = ["a.S"] := by decide

/-! ### Discovery lemmas -/

theorem jsVal_sizeOf_pos (v : JsVal) : 0 < sizeOf v := by
  cases v <;> simp_arith

theorem wfFields_mem {fields : List (String × JsVal)}
    (h : wfFields fields = true) : ∀ kv ∈ fields, wfKeys kv.2 = true := by
  induction fields with
  | nil => intro kv hkv; cases hkv
  | cons a rest ih =>
      obtain ⟨k, v⟩ := a
      rw [wfFields, Bool.and_eq_true] at h
      intro kv hkv
      rcases List.mem_cons.1 hkv with h1 | h2
      · subst h1; exact h.1
      · exact ih h.2 kv h2

theorem wfKeys_obj {fields : List (String × JsVal)}
    (h : wfKeys (JsVal.obj fields) = true) :
    (fields.map Prod.fst).Nodup ∧
    (∀ kv ∈ fields, kv.1 ≠ "") ∧
    (∀ kv ∈ fields, wfKeys kv.2 = true) := by
  rw [wfKeys, Bool.and_eq_true, Bool.and_eq_true] at h
  obtain ⟨⟨hnd, hne⟩, hwf⟩ := h
  refine ⟨of_decide_eq_true hnd, ?_, wfFields_mem hwf⟩
  intro kv hkv
  have := List.all_eq_true.1 hne kv hkv
  simpa using this

theorem lookupEntry_some_mem {fields : List (String × JsVal)} {k : String}
    {v : JsVal} (h : lookupEntry fields k = some v) : (k, v) ∈ fields := by
  induction fields with
  | nil => simp [lookupEntry] at h
  | cons a rest ih =>
      obtain ⟨k2, v2⟩ := a
      by_cases hk : k2 = k
      · subst hk
        simp [lookupEntry] at h
        subst h
        exact List.mem_cons_self _ _
      · rw [lookupEntry, if_neg hk] at h
        exact List.mem_cons_of_mem _ (ih h)

theorem mem_lookupEntry_of_nodup {fields : List (String × JsVal)}
    (hnd : (fields.map Prod.fst).Nodup) {k : String} {v : JsVal}
    (h : (k, v) ∈ fields) : lookupEntry fields k = some v := by
  induction fields with
  | nil => cases h
  | cons a rest ih =>
      obtain ⟨k2, v2⟩ := a
      rw [List.map_cons, List.nodup_cons] at hnd
      rcases List.mem_cons.1 h with h1 | h2
      · rw [Prod.mk.injEq] at h1
        obtain ⟨h1a, h1b⟩ := h1
        subst h1a; subst h1b
        simp [lookupEntry]
      · by_cases hk : k2 = k
        · subst hk
          exact absurd (List.mem_map_of_mem Prod.fst h2) hnd.1
        · rw [lookupEntry, if_neg hk]
          exact ih hnd.2 h2

theorem nodeAt_cons_some {fields : List (String × JsVal)} {k : String}
    {w : JsVal} (p : List String) (h : lookupEntry fields k = some w) :
    nodeAt (JsVal.obj fields) (k :: p) = nodeAt w p := by
  simp [nodeAt, h]

theorem nodeAt_cons_eq {fields : List (String × JsVal)} {k : String}
    {p : List String} {u : JsVal} :
    nodeAt (JsVal.obj fields) (k :: p) = some u ↔
      ∃ w, lookupEntry fields k = some w ∧ nodeAt w p = some u := by
  cases h : lookupEntry fields k <;> simp [nodeAt, h]

theorem dotted_cons {k : String} {p : List String} (hp : p ≠ []) :
    dotted (k :: p) = k ++ "." ++ dotted p := by
  cases p with
  | nil => exact absurd rfl hp
  | cons b q => rfl

theorem extendName_single (name k : String) :
    extendName name [k] = parseDeepServiceName name k := by
  simp [extendName, parseDeepServiceName, dotted]

theorem string_eq_empty_of_length {s : String} (h : s.length = 0) :
    s = "" := by
  apply String.ext
  exact List.length_eq_zero.1 h

theorem extendName_cons {name k : String} {p : List String}
    (hk : k ≠ "") (hp : p ≠ []) :
    extendName (parseDeepServiceName name k) p = extendName name (k :: p) := by
  have hkl : k.length ≠ 0 := fun h => hk (string_eq_empty_of_length h)
  by_cases hn : name.length = 0
  · simp [parseDeepServiceName, extendName, hn, hkl, dotted_cons hp]
  · have hdot : ("." : String).length = 1 := rfl
    have hl : (name ++ "." ++ k).length ≠ 0 := by
      simp [String.length_append, hdot]
    simp [parseDeepServiceName, extendName, hn, hl, dotted_cons hp,
      String.append_assoc]

theorem ancestorsClear_single (v : JsVal) (k : String) :
    ancestorsClear v [k] := by
  intro q r hq hr hqr
  exfalso
  rcases q with _ | ⟨a, q⟩
  · exact hq rfl
  · rcases r with _ | ⟨b, r⟩
    · exact hr rfl
    · have hlen := congrArg List.length hqr
      simp [List.length_append] at hlen

theorem ancestorsClear_cons {fields : List (String × JsVal)} {k : String}
    {w : JsVal} {p : List String}
    (hlook : lookupEntry fields k = some w) (hp : p ≠ []) :
    ancestorsClear (JsVal.obj fields) (k :: p) ↔
      isServiceNode w = false ∧ ancestorsClear w p := by
  constructor
  · intro h
    constructor
    · obtain ⟨w', hw', hsvc⟩ := h [k] p (by simp) hp rfl
      rw [nodeAt_cons_some [] hlook] at hw'
      simp [nodeAt] at hw'
      subst hw'
      exact hsvc
    · intro q r hq hr hqr
      obtain ⟨w', hw', hsvc⟩ := h (k :: q) r (by simp) hr
        (by rw [← hqr]; rfl)
      rw [nodeAt_cons_some q hlook] at hw'
      exact ⟨w', hw', hsvc⟩
  · rintro ⟨hws, hanc⟩ q r hq hr hqr
    rcases q with _ | ⟨a, q'⟩
    · exact absurd rfl hq
    · rw [List.cons_append, List.cons.injEq] at hqr
      obtain ⟨rfl, hqr'⟩ := hqr
      rcases q' with _ | ⟨b, q''⟩
      · refine ⟨w, ?_, hws⟩
        rw [nodeAt_cons_some [] hlook]
        simp [nodeAt]
      · obtain ⟨w', hw', hsvc⟩ := hanc (b :: q'') r (by simp) hr hqr'
        exact ⟨w', by rw [nodeAt_cons_some _ hlook]; exact hw', hsvc⟩

theorem mem_collectFields {name nm : String} {u : JsVal}
    {fields : List (String × JsVal)} :
    (nm, u) ∈ collectFields name fields ↔
      ∃ k child, (k, child) ∈ fields ∧
        ((isServiceNode child = true ∧ nm = parseDeepServiceName name k ∧
            u = child) ∨
         (isServiceNode child = false ∧
            (nm, u) ∈ collectDeepServices (parseDeepServiceName name k)
              child)) := by
  induction fields with
  | nil => simp [collectFields]
  | cons a rest ih =>
      obtain ⟨k2, child2⟩ := a
      rw [collectFields, List.mem_append, ih]
      by_cases hs : isServiceNode child2
      · rw [if_pos hs]
        constructor
        · rintro (h1 | ⟨k, child, hmem, hcase⟩)
          · rw [List.mem_singleton, Prod.mk.injEq] at h1
            exact ⟨k2, child2, List.mem_cons_self _ _,
              Or.inl ⟨hs, h1.1, h1.2⟩⟩
          · exact ⟨k, child, List.mem_cons_of_mem _ hmem, hcase⟩
        · rintro ⟨k, child, hmem, hcase⟩
          rcases List.mem_cons.1 hmem with heq | hmem'
          · rw [Prod.mk.injEq] at heq
            obtain ⟨rfl, rfl⟩ := heq
            rcases hcase with ⟨h1, h2, h3⟩ | ⟨h1, h2⟩
            · left
              rw [List.mem_singleton, Prod.mk.injEq]
              exact ⟨h2, h3⟩
            · rw [hs] at h1
              cases h1
          · right; exact ⟨k, child, hmem', hcase⟩
      · rw [if_neg hs]
        rw [Bool.not_eq_true] at hs
        constructor
        · rintro (h1 | ⟨k, child, hmem, hcase⟩)
          · exact ⟨k2, child2, List.mem_cons_self _ _, Or.inr ⟨hs, h1⟩⟩
          · exact ⟨k, child, List.mem_cons_of_mem _ hmem, hcase⟩
        · rintro ⟨k, child, hmem, hcase⟩
          rcases List.mem_cons.1 hmem with heq | hmem'
          · rw [Prod.mk.injEq] at heq
            obtain ⟨rfl, rfl⟩ := heq
            rcases hcase with ⟨h1, h2, h3⟩ | ⟨h1, h2⟩
            · rw [hs] at h1
              cases h1
            · left; exact h2
          · right; exact ⟨k, child, hmem', hcase⟩

/-- Characterization of the collector on well-formed trees, generalized
over the accumulated name: the entries of `collectDeepServices name v`
are exactly the service nodes of `v` at nonempty paths all of whose
proper ancestors below the root are non-service nodes, labelled with the
extended dotted name. -/
theorem mem_collect_iff :
    ∀ (fuel : Nat) (v : JsVal), sizeOf v ≤ fuel → wfKeys v = true →
    ∀ (name nm : String) (u : JsVal),
      ((nm, u) ∈ collectDeepServices name v ↔
        ∃ p, p ≠ [] ∧ nm = extendName name p ∧ nodeAt v p = some u ∧
          isServiceNode u = true ∧ ancestorsClear v p) := by
  intro fuel
  induction fuel with
  | zero =>
      intro v hv
      have := jsVal_sizeOf_pos v
      omega
  | succ n ih =>
      intro v hv hwf name nm u
      cases v with
      | undef =>
          constructor
          · intro h; simp [collectDeepServices] at h
          · rintro ⟨p, hp, -, hnode, -, -⟩
            rcases p with _ | ⟨k, p'⟩
            · exact absurd rfl hp
            · simp [nodeAt] at hnode
      | fls =>
          constructor
          · intro h; simp [collectDeepServices] at h
          · rintro ⟨p, hp, -, hnode, -, -⟩
            rcases p with _ | ⟨k, p'⟩
            · exact absurd rfl hp
            · simp [nodeAt] at hnode
      | prim m =>
          constructor
          · intro h; simp [collectDeepServices] at h
          · rintro ⟨p, hp, -, hnode, -, -⟩
            rcases p with _ | ⟨k, p'⟩
            · exact absurd rfl hp
            · simp [nodeAt] at hnode
      | obj fields =>
          obtain ⟨hnd, hkne, hwfc⟩ := wfKeys_obj hwf
          have hszf : sizeOf fields ≤ n := by
            have hs : sizeOf (JsVal.obj fields) = 1 + sizeOf fields := by
              simp
            omega
          have hchild_sz : ∀ k child, (k, child) ∈ fields →
              sizeOf child ≤ n := by
            intro k child hmem
            have h1 := List.sizeOf_lt_of_mem hmem
            have h2 : sizeOf (k, child) = 1 + sizeOf k + sizeOf child := by
              simp
            omega
          rw [show collectDeepServices name (JsVal.obj fields)
              = collectFields name fields from rfl, mem_collectFields]
          constructor
          · rintro ⟨k, child, hmem, hcase⟩
            have hlook : lookupEntry fields k = some child :=
              mem_lookupEntry_of_nodup hnd hmem
            have hkne' : k ≠ "" := hkne (k, child) hmem
            rcases hcase with ⟨hsvc, hnm, rfl⟩ | ⟨hnsvc, hrec⟩
            · refine ⟨[k], by simp, ?_, ?_, hsvc,
                ancestorsClear_single _ _⟩
              · rw [hnm, extendName_single]
              · rw [nodeAt_cons_some [] hlook]; simp [nodeAt]
            · have hwfc' : wfKeys child = true := hwfc (k, child) hmem
              obtain ⟨p', hp', hnm', hnode', hsvc', hanc'⟩ :=
                (ih child (hchild_sz k child hmem) hwfc' _ nm u).1 hrec
              refine ⟨k :: p', by simp, ?_, ?_, hsvc', ?_⟩
              · rw [hnm', extendName_cons hkne' hp']
              · rw [nodeAt_cons_some p' hlook]; exact hnode'
              · exact (ancestorsClear_cons hlook hp').2 ⟨hnsvc, hanc'⟩
          · rintro ⟨p, hp, hnm, hnode, hsvc, hanc⟩
            rcases p with _ | ⟨k, p'⟩
            · exact absurd rfl hp
            · obtain ⟨w, hlook, hrest⟩ := nodeAt_cons_eq.1 hnode
              have hmem : (k, w) ∈ fields := lookupEntry_some_mem hlook
              have hkne' : k ≠ "" := hkne (k, w) hmem
              rcases p' with _ | ⟨b, p''⟩
              · simp [nodeAt] at hrest
                subst hrest
                rw [extendName_single] at hnm
                exact ⟨k, w, hmem, Or.inl ⟨hsvc, hnm, rfl⟩⟩
              · have hpne : (b :: p'') ≠ [] := by simp
                obtain ⟨hwsvc, hanc'⟩ :=
                  (ancestorsClear_cons hlook hpne).1 hanc
                have hwfc' : wfKeys w = true := hwfc (k, w) hmem
                refine ⟨k, w, hmem, Or.inr ⟨hwsvc, ?_⟩⟩
                refine (ih w (hchild_sz k w hmem) hwfc' _ nm u).2
                  ⟨b :: p'', hpne, ?_, hrest, hsvc, hanc'⟩
                rw [hnm, extendName_cons hkne' hpne]

/-- C9 counterexample: the claim states that `getServiceNames` returns
exactly the nodes carrying a defined, non-false `service` field, each
under its dotted path name.  In this tree the node at path A.B carries
a service definition, but the collector stops descending at the service
node A, so A.B is missing from the result. -/
theorem nested_service_missed :
    wfKeys (JsVal.obj [("A", JsVal.obj [("service", JsVal.prim 1),
      ("B", JsVal.obj [("service", JsVal.prim 2)])])]) = true ∧
    nodeAt (JsVal.obj [("A", JsVal.obj [("service", JsVal.prim 1),
      ("B", JsVal.obj [("service", JsVal.prim 2)])])]) ["A", "B"]
      = some (JsVal.obj [("service", JsVal.prim 2)]) ∧
    isServiceNode (JsVal.obj [("service", JsVal.prim 2)]) = true ∧
    (getServiceNames (JsVal.obj [("A", JsVal.obj [("service",
      JsVal.prim 1), ("B", JsVal.obj [("service", JsVal.prim 2)])])])).map
      Prod.fst = ["A"] ∧
    ¬ "A.B" ∈ (getServiceNames (JsVal.obj [("A", JsVal.obj [("service",
      JsVal.prim 1), ("B", JsVal.obj [("service",
      JsVal.prim 2)])])])).map Prod.fst :=
  ⟨by decide, rfl, rfl, by decide, by decide⟩

/-- C9 (amended): on every well-formed finite namespace tree,
`getServiceNames` returns exactly the shallowest service-carrying nodes
— the nodes with a defined, non-false `service` field none of whose
proper ancestors below the root carries one — each paired with the
fully dotted name of its path from the root; service-carrying nodes
nested below another service-carrying node are not visited and are not
returned. -/
theorem getServiceNames_minimal_services (pkg : JsVal)
    (hwf : wfKeys pkg = true) :
    (∀ nm u, (nm, u) ∈ getServiceNames pkg →
       ∃ p, p ≠ [] ∧ nm = dotted p ∧ nodeAt pkg p = some u ∧
         isServiceNode u = true ∧ ancestorsClear pkg p) ∧
    (∀ p u, p ≠ [] → nodeAt pkg p = some u → isServiceNode u = true →
       ancestorsClear pkg p → (dotted p, u) ∈ getServiceNames pkg) := by
  have hmain := mem_collect_iff (sizeOf pkg) pkg le_rfl hwf ""
  have hext : ∀ p : List String, extendName "" p = dotted p := by
    intro p
    have h0 : ("" : String).length = 0 := by decide
    simp [extendName, h0]
  constructor
  · intro nm u hm
    obtain ⟨p, h1, h2, h3, h4, h5⟩ := (hmain nm u).1 hm
    exact ⟨p, h1, by rw [h2, hext], h3, h4, h5⟩
  · intro p u hp h1 h2 h3
    exact (hmain (dotted p) u).2 ⟨p, hp, (hext p).symm, h1, h2, h3⟩

theorem getServiceNames_minimal_services_witness :
    (dotted ["X"], JsVal.obj [("service", JsVal.prim 1)]) ∈
      getServiceNames (JsVal.obj [("X",
        JsVal.obj [("service", JsVal.prim 1)])]) := by
  refine (getServiceNames_minimal_services
      (JsVal.obj [("X", JsVal.obj [("service", JsVal.prim 1)])])
      (by decide)).2 ["X"] (JsVal.obj [("service", JsVal.prim 1)])
    (by simp) rfl rfl ?_
  exact ancestorsClear_single _ "X"

end NestGrpc
